import Mathlib

/-!
# Verification of the route-network evaluation engine (src/network_sim.py)

Shallow embedding of the numeric pipeline of `network_sim.py` and proofs of
the specification's claims about it.

Numeric model: pandas/numpy float cells are modelled by `PVal`, rational
numbers extended with `+inf`, `-inf` and `NaN` (the missing-value sentinel of
pandas).  The arithmetic follows IEEE-754 special-value propagation exactly
(`NaN` absorbs, `inf - inf = NaN`, `0 * inf = NaN`, nonzero `/ 0 = ±inf`,
`0 / 0 = NaN`, comparisons with `NaN` are `false`); rounding error and the
sign of zero are outside the model, and no claim depends on them.
Transcendental values (`np.log` on positive arguments, `np.polyfit`
coefficients) are abstracted as parameters, since only their special-case
behaviour (`log 1 = 0`, `log 0 = -inf`, `log x = NaN` for `x < 0`) decides
any claim.
-/

/-- A pandas float cell: a rational, `+∞`, `-∞`, or `NaN` (the missing
sentinel). -/
inductive PVal where
  | num : ℚ → PVal
  | pinf : PVal
  | ninf : PVal
  | nan : PVal
deriving DecidableEq, Repr

namespace PVal

/-- IEEE-style addition. -/
def pvAdd : PVal → PVal → PVal
  | nan, _ => nan
  | _, nan => nan
  | pinf, ninf => nan
  | ninf, pinf => nan
  | pinf, _ => pinf
  | _, pinf => pinf
  | ninf, _ => ninf
  | _, ninf => ninf
  | num a, num b => num (a + b)

/-- IEEE-style negation. -/
def pvNeg : PVal → PVal
  | nan => nan
  | pinf => ninf
  | ninf => pinf
  | num a => num (-a)

/-- IEEE-style subtraction. -/
def pvSub (a b : PVal) : PVal := pvAdd a (pvNeg b)

/-- IEEE-style multiplication (`0 * ∞ = NaN`). -/
def pvMul : PVal → PVal → PVal
  | nan, _ => nan
  | _, nan => nan
  | pinf, pinf => pinf
  | pinf, ninf => ninf
  | ninf, pinf => ninf
  | ninf, ninf => pinf
  | pinf, num b => if b = 0 then nan else if 0 < b then pinf else ninf
  | num a, pinf => if a = 0 then nan else if 0 < a then pinf else ninf
  | ninf, num b => if b = 0 then nan else if 0 < b then ninf else pinf
  | num a, ninf => if a = 0 then nan else if 0 < a then ninf else pinf
  | num a, num b => num (a * b)

/-- IEEE-style division (nonzero `/ 0 = ±∞`, `0 / 0 = NaN`, `x / ∞ = 0`,
`∞ / ∞ = NaN`; the sign of zero is not modelled, so `/ 0` behaves as
`/ +0.0`). -/
def pvDiv : PVal → PVal → PVal
  | nan, _ => nan
  | _, nan => nan
  | pinf, pinf => nan
  | pinf, ninf => nan
  | ninf, pinf => nan
  | ninf, ninf => nan
  | num _, pinf => num 0
  | num _, ninf => num 0
  | pinf, num b => if 0 ≤ b then pinf else ninf
  | ninf, num b => if 0 ≤ b then ninf else pinf
  | num a, num b =>
      if b = 0 then (if a = 0 then nan else if 0 < a then pinf else ninf)
      else num (a / b)

/-- Python `<` on floats: any comparison involving `NaN` is `false`. -/
def pvLt : PVal → PVal → Bool
  | nan, _ => false
  | _, nan => false
  | ninf, ninf => false
  | ninf, _ => true
  | _, ninf => false
  | pinf, _ => false
  | num _, pinf => true
  | num a, num b => decide (a < b)

/-- Python `<=` on floats: any comparison involving `NaN` is `false`. -/
def pvLe : PVal → PVal → Bool
  | nan, _ => false
  | _, nan => false
  | ninf, _ => true
  | _, ninf => false
  | _, pinf => true
  | pinf, _ => false
  | num a, num b => decide (a ≤ b)

/-- Python `>` on floats. -/
def pvGt (a b : PVal) : Bool := pvLt b a

/-- Python `>=` on floats. -/
def pvGe (a b : PVal) : Bool := pvLe b a

/-- `pd.notna`: `false` exactly on the missing sentinel (`±∞` is not
missing). -/
def pvNotNA : PVal → Bool
  | nan => false
  | _ => true

/-- `np.isfinite`: `true` exactly on finite numbers. -/
def pvIsFinite : PVal → Bool
  | num _ => true
  | _ => false

/-- `Series.replace(a, b)` with scalar arguments, cell-wise. -/
def pvReplace (x a b : PVal) : PVal := if x = a then b else x

/-- `Series.fillna(v)`, cell-wise. -/
def pvFillna (x v : PVal) : PVal := if x = nan then v else x

/-- The binary step of a pandas `min` reduction. -/
def pvMinBin (a b : PVal) : PVal := if pvLt b a then b else a

/-- `Series.min()` with the default `skipna=True`: the least non-`NaN`
value, or `NaN` when every value is missing. -/
def pvMin (xs : List PVal) : PVal :=
  match xs.filter (fun x => x ≠ nan) with
  | [] => nan
  | h :: t => t.foldl pvMinBin h

@[simp] theorem pvAdd_nan_right : ∀ x, pvAdd x nan = nan := by
  intro x; cases x <;> rfl

@[simp] theorem pvAdd_nan_left : ∀ x, pvAdd nan x = nan := by
  intro x; cases x <;> rfl

@[simp] theorem pvSub_nan_right : ∀ x, pvSub x nan = nan := by
  intro x; cases x <;> rfl

@[simp] theorem pvSub_nan_left : ∀ x, pvSub nan x = nan := by
  intro x; cases x <;> rfl

@[simp] theorem pvMul_nan_right : ∀ x, pvMul x nan = nan := by
  intro x; cases x <;> rfl

@[simp] theorem pvMul_nan_left : ∀ x, pvMul nan x = nan := by
  intro x; cases x <;> rfl

@[simp] theorem pvDiv_nan_right : ∀ x, pvDiv x nan = nan := by
  intro x; cases x <;> rfl

@[simp] theorem pvDiv_nan_left : ∀ x, pvDiv nan x = nan := by
  intro x; cases x <;> rfl

@[simp] theorem pvMul_one_right : ∀ x, pvMul x (num 1) = x := by
  intro x
  cases x <;> simp [pvMul]

end PVal

open PVal

/-! ## Resilience Scorer — `compute_rrs` (src/network_sim.py lines 12-31)

Row-wise embedding of the column arithmetic of `compute_rrs`.  The
`pd.to_numeric(..., errors='coerce')` coercion of lines 20-21 is the
identity on the modelled domain (unparseable cells are already `nan`).
The function returns the final `RRS` cell (line 30). -/
def computeRRS (marketAvgFare : ℚ) (cost profit asm yld lf spill : PVal) : PVal :=
  let casm := pvDiv cost asm
  let belf := pvDiv casm (pvReplace yld (num 0) nan)
  let lfDecimal := pvDiv lf (num 100)
  let lfMinusBelf := pvSub lfDecimal belf
  let spillAdjusted := pvSub (num 1) (pvReplace spill (num 1) nan)
  let profitPerAsm := pvDiv profit (pvMul asm (num 1000))
  let rrsSimplified := pvMul (pvMul (pvDiv lfMinusBelf spillAdjusted) profitPerAsm) (num 10000)
  let farePremium := pvDiv yld (num marketAvgFare)
  pvMul rrsSimplified farePremium

/-- Helper: a spill rate of exactly 1 forces `RRS = NaN`
(`Spill_Adjusted = 1 - NaN = NaN` absorbs the whole product). -/
theorem computeRRS_spill_one (fare : ℚ) (cost profit asm yld lf : PVal) :
    computeRRS fare cost profit asm yld lf (num 1) = PVal.nan := by
  simp [computeRRS, pvReplace]

/-- Helper: a constrained yield of exactly 0 forces `RRS = NaN`
(`BELF = CASM / NaN = NaN` absorbs the whole product). -/
theorem computeRRS_yield_zero (fare : ℚ) (cost profit asm lf spill : PVal) :
    computeRRS fare cost profit asm (num 0) lf spill = PVal.nan := by
  simp [computeRRS, pvReplace]

/-- C3: for every record passed to the Resilience Scorer whose spill rate is
exactly 1 or whose yield is exactly 0, the resulting RRS is the missing-value
sentinel (`NaN` is pandas' missing sentinel); the computation is a total
function and never leaves an infinity in place of the sentinel. -/
theorem C3_rrs_spill_one_or_yield_zero_missing
    (fare : ℚ) (cost profit asm yld lf spill : PVal)
    (h : spill = PVal.num 1 ∨ yld = PVal.num 0) :
    computeRRS fare cost profit asm yld lf spill = PVal.nan := by
  rcases h with h | h
  · subst h; exact computeRRS_spill_one fare cost profit asm yld lf
  · subst h; exact computeRRS_yield_zero fare cost profit asm lf spill

/-- Witness for C3 at a concrete record with spill rate 1. -/
theorem C3_witness :
    computeRRS 11 (num 5) (num 3) (num 2) (num 4) (num 80) (num 1) = PVal.nan :=
  C3_rrs_spill_one_or_yield_zero_missing 11 (num 5) (num 3) (num 2) (num 4)
    (num 80) (num 1) (Or.inl rfl)

/-! ## Elasticity multiplier (src/network_sim.py lines 125-128)

`lambda row: 1.2 if row["Constrained Segment Pax"] > 1.1 * row["Seats"] * 0.7
else 1.0`, applied row-wise.  Python parses the guard as
`pax > ((1.1 * seats) * 0.7)`; a `NaN` comparison is `False`, giving 1.0. -/
def elasticityAt (pax seats : PVal) : PVal :=
  if pvGt pax (pvMul (pvMul (num (11/10)) seats) (num (7/10))) then num (6/5)
  else num 1

/-- Modelled from the spec's words, for comparison with `elasticityAt`: the
spec's trigger threshold is `1.1 × seats × frequency × 0.7`, with a
frequency factor the source has no counterpart of. -/
def specElasticityAt (pax seats freq : PVal) : PVal :=
  if pvGt pax (pvMul (pvMul (pvMul (num (11/10)) seats) freq) (num (7/10))) then num (6/5)
  else num 1

/-- C7 counterexample: at constrained pax 10, seats 10, frequency 7 the code
yields multiplier 1.2 (threshold `1.1*10*0.7 = 7.7 < 10`) although the
claim's threshold `1.1*10*7*0.7 = 53.9` is not exceeded, so the claim's
"exactly when" is false for this record. -/
theorem C7_counterexample :
    elasticityAt (num 10) (num 10) = num (6/5) ∧
    specElasticityAt (num 10) (num 10) (num 7) = num 1 := by
  refine ⟨?_, ?_⟩ <;> · simp [elasticityAt, specElasticityAt, pvGt, pvLt, pvMul]; norm_num

/-- C7 amended: the elasticity multiplier equals 1.2 exactly when constrained
segment pax exceeds `1.1 × seats × 0.7` — the spec's threshold with the
frequency factor fixed at 1; no frequency term enters the source's trigger
(and a missing comparison yields 1.0). -/
theorem C7_amended_no_frequency_factor (pax seats : PVal) :
    elasticityAt pax seats = specElasticityAt pax seats (num 1) := by
  simp [elasticityAt, specElasticityAt]

/-! ## Raw Usefulness (src/network_sim.py lines 147-149)

`(TRASM - Normalized TRASM) / Normalized TRASM * Elasticity
 * (1 + 0.1 * Spill Rate)`, cell-wise with pandas float semantics. -/
def rawUsefulness (trasm norm elast spill : PVal) : PVal :=
  pvMul (pvMul (pvDiv (pvSub trasm norm) norm) elast)
    (pvAdd (num 1) (pvMul (num (1/10)) spill))

/-- C5 counterexample: a record with normalized TRASM exactly 0 and raw
TRASM 1 (elasticity 1, spill 0) gets Raw Usefulness `(1-0)/0 = +∞` — an
infinity, not the missing sentinel, refuting "the result is never an
infinity" for a zero denominator. -/
theorem C5_counterexample :
    rawUsefulness (num 1) (num 0) (num 1) (num 0) = PVal.pinf := by
  simp [rawUsefulness, pvMul, pvDiv, pvSub, pvAdd, pvNeg]

/-- C5 amended: for every record whose normalized-TRASM denominator is
missing, the Usefulness score is the missing sentinel and no fault is raised
(the computation is total); a denominator of exactly 0, however, yields
`±∞` when the numerator is nonzero (pandas division does not fault), and
the missing sentinel only when the numerator is also 0. -/
theorem C5_amended_missing_denominator (trasm elast spill : PVal) :
    rawUsefulness trasm PVal.nan elast spill = PVal.nan := by
  simp [rawUsefulness]

/-! ## Stage-length normalization formula (src/network_sim.py line 142)

`df_raw["Normalized TRASM"] = trasm_fit[0] * np.log(df_raw["Distance (mi)"].fillna(1)) + trasm_fit[1]`

The regression coefficients `trasm_fit[0]` (slope) and `trasm_fit[1]`
(intercept) come from `np.polyfit` and are taken as parameters.  `np.log` is
transcendental; its value on positive rationals is abstracted as a parameter
`logPos`, while its special cases are fixed by numpy: `log NaN = NaN`,
`log(+inf) = +inf`, `log 0 = -inf` and `log x = NaN` for `x < 0` (numpy
emits a RuntimeWarning for the last two, not an exception). -/
def npLog (logPos : ℚ → ℚ) : PVal → PVal
  | PVal.nan => PVal.nan
  | PVal.pinf => PVal.pinf
  | PVal.ninf => PVal.nan
  | PVal.num q => if q < 0 then PVal.nan else if q = 0 then PVal.ninf else PVal.num (logPos q)

/-- Line 142, cell-wise: only missing distances are replaced by 1
(`fillna(1)`) before taking the logarithm. -/
def normalizedTRASMAt (logPos : ℚ → ℚ) (slope intercept d : PVal) : PVal :=
  pvAdd (pvMul slope (npLog logPos (pvFillna d (num 1)))) intercept

/-- Modelled from the spec's words, for comparison with `normalizedTRASMAt`:
`normalized = intercept + slope × ln(max(distance, 1))`, the floor of one
mile applying to every distance (a missing distance is also floored to 1, as
the claim asserts missing distances are safe). -/
def specNormalizedTRASMAt (logPos : ℚ → ℚ) (slope intercept d : PVal) : PVal :=
  pvAdd (pvMul slope (npLog logPos (match d with
    | PVal.num q => PVal.num (max q 1)
    | PVal.nan => PVal.num 1
    | PVal.ninf => PVal.num 1
    | PVal.pinf => PVal.pinf))) intercept

/-- C6 counterexample: with slope 1, intercept 0 and any realization of the
logarithm (here the constant 0, which satisfies `log 1 = 0`), a record with
distance exactly 0 gets `1 * log 0 + 0 = -∞` from the code, while the
claimed formula `intercept + slope × ln(max(0,1))` gives 0 — the floor of
one mile is not applied to a zero distance, so the claim is false at this
record. -/
theorem C6_counterexample :
    normalizedTRASMAt (fun _ => 0) (num 1) (num 0) (num 0) = PVal.ninf ∧
    specNormalizedTRASMAt (fun _ => 0) (num 1) (num 0) (num 0) = PVal.num 0 := by
  constructor
  · simp [normalizedTRASMAt, npLog, pvFillna, pvMul, pvAdd]
  · norm_num [specNormalizedTRASMAt, npLog, pvMul, pvAdd]

/-- C6 amended: the code floors only missing distances at one mile
(`fillna(1)`), so the computed normalized TRASM agrees with the claimed
`intercept + slope × ln(max(distance,1))` exactly for missing distances and
distances of at least one mile; zero, negative or sub-one-mile distances
reach the logarithm unfloored (numpy then yields `-∞`/`NaN` with a warning,
never an exception — the computation stays total). -/
theorem C6_amended_fillna_floor (logPos : ℚ → ℚ) (slope intercept d : PVal)
    (h : d = PVal.nan ∨ ∃ q : ℚ, d = PVal.num q ∧ 1 ≤ q) :
    normalizedTRASMAt logPos slope intercept d =
      specNormalizedTRASMAt logPos slope intercept d := by
  rcases h with h | ⟨q, rfl, hq⟩
  · subst h
    simp [normalizedTRASMAt, specNormalizedTRASMAt, npLog, pvFillna]
  · have h0 : ¬ q < 0 := by linarith
    have h1 : q ≠ 0 := by intro h; rw [h] at hq; norm_num at hq
    have h2 : max q 1 = q := max_eq_left hq
    simp [normalizedTRASMAt, specNormalizedTRASMAt, npLog, pvFillna, h0, h1, h2]

/-- Witness for C6 amended at a missing distance with the constant-zero
logarithm realization. -/
theorem C6_witness :
    normalizedTRASMAt (fun _ => 0) (num 2) (num 3) PVal.nan =
      specNormalizedTRASMAt (fun _ => 0) (num 2) (num 3) PVal.nan :=
  C6_amended_fillna_floor (fun _ => 0) (num 2) (num 3) PVal.nan (Or.inl rfl)

/-! ## Stage-Length Normalizer guard — `valid_mask` (src/network_sim.py lines 130-145)

The guard block is mis-indented in the source (line 131 indents to 8 spaces
inside the 4-space `try` suite with no block opener, and line 147 dedents to
column 0), so the file does not parse as Python and the
identity-fallback-with-warning at lines 143-145 can never execute.
Independently of the indentation, the guard expression

  `df_raw["Distance (mi)"].notna() & df_raw["Distance (mi)"] > 0 &
   df_raw["TRASM"].notna() & np.isfinite(df_raw["TRASM"])`

parses as `(dist.notna() & dist) > ((0 & trasm.notna()) & isfinite(trasm))`
because `&` binds tighter than `>` in Python.  pandas evaluates it without
fault: logical `&` coerces a float column to booleans cell-wise (the
`fill_bool` path: missing → `False`, zero → `False`, any other value →
`True`), and `0 & bools` is all-`False`, so the guard reduces to "distance
non-missing and nonzero" — the positivity test on the distance and the whole
TRASM validity test are swallowed by the precedence slip.  A `Col` is a
dtyped column, `pdAnd` is column `&` with that coercion, and `pdZeroAnd` is
`0 & bools`. -/
inductive Col where
  | bools : List Bool → Col
  | floats : List PVal → Col
deriving DecidableEq, Repr

/-- pandas logical-op coercion of one cell to a boolean (`fill_bool`):
missing and zero cells are falsy; every other value, including `±∞` and
negative numbers, is truthy. -/
def pvTruthy : PVal → Bool
  | PVal.nan => false
  | PVal.num q => decide (q ≠ 0)
  | PVal.pinf => true
  | PVal.ninf => true

/-- A column as booleans: boolean columns unchanged, float columns coerced
cell-wise via `fill_bool`. -/
def colToBools : Col → List Bool
  | Col.bools xs => xs
  | Col.floats xs => xs.map pvTruthy

/-- Column `&` (pandas `logical_op`): both operands taken as booleans (float
columns through the `fill_bool` coercion), combined elementwise. -/
def pdAnd (a b : Col) : Col :=
  Col.bools (List.zipWith (fun x y => x && y) (colToBools a) (colToBools b))

/-- The scalar operation `0 & boolean-column`: all-`False`. -/
def pdZeroAnd (xs : List Bool) : Col := Col.bools (xs.map (fun _ => false))

/-- A column as floats for comparison: booleans cast to 0/1. -/
def colToFloats : Col → List PVal
  | Col.bools xs => xs.map (fun b => if b then num 1 else num 0)
  | Col.floats xs => xs

/-- Column `>`, elementwise with float comparison semantics. -/
def pdColGt (a b : Col) : List Bool := List.zipWith pvGt (colToFloats a) (colToFloats b)

/-- Lines 131-136 as Python parses them: the `valid_mask` expression of the
Stage-Length Normalizer over the distance and TRASM columns. -/
def validMaskLiteral (dist trasm : List PVal) : List Bool :=
  pdColGt (pdAnd (Col.bools (dist.map pvNotNA)) (Col.floats dist))
    (pdAnd (pdZeroAnd (trasm.map pvNotNA)) (Col.bools (trasm.map pvIsFinite)))

/-- Modelled from the spec (the intent of lines 131-136): a record is a
valid point when its distance is non-missing and positive and its TRASM is
non-missing and finite. -/
def specValidMask (dist trasm : List PVal) : List Bool :=
  List.zipWith (fun d t => pvNotNA d && pvGt d (num 0) && pvNotNA t && pvIsFinite t)
    dist trasm

/-- Lines 138-145, re-indented: if more than 10 rows pass `valid_mask`, the
fitted line of line 142 (the formula of `normalizedTRASMAt`, with the
`np.polyfit` coefficients abstracted as parameters) is applied to the whole
distance column and no warning is issued; otherwise the normalized column
is the raw TRASM column and the warning of line 144 is surfaced.  The
returned flag is `true` exactly when the warning is shown. -/
def stageLengthNormalize (logPos : ℚ → ℚ) (slope intercept : PVal)
    (dist trasm : List PVal) : List PVal × Bool :=
  if (validMaskLiteral dist trasm).count true > 10 then
    (dist.map (fun d => normalizedTRASMAt logPos slope intercept d), false)
  else
    (trasm, true)

/-- C1: the claim states that every batch with fewer than 10 valid points
(valid positive distance and valid TRASM) degrades to `normalized = raw`
with a caller-visible warning and never a fault.  The code cannot deliver
this: the block is mis-indented so the file does not parse at all, and the
guard itself miscounts — through the `&`/`>` precedence slip it counts
every non-missing nonzero distance, ignoring the distance's sign and the
TRASM column.  Shown here on a batch of 12 rows with distance `-1` and
TRASM `5`: it has zero valid points (fewer than 10), yet the guard counts
12 > 10 and takes the regression branch for every possible fit — no
warning, and a normalized column that is all-`NaN` (the fitted line over
`ln(-1)`), not the raw TRASM (in the real pipeline `np.polyfit` then
faults with a `LinAlgError` on those `NaN` logs). -/
theorem C1_invalid_batch_takes_regression_branch
    (logPos : ℚ → ℚ) (slope intercept : PVal) :
    (specValidMask (List.replicate 12 (num (-1))) (List.replicate 12 (num 5))).count true = 0 ∧
    (stageLengthNormalize logPos slope intercept (List.replicate 12 (num (-1)))
      (List.replicate 12 (num 5))).2 = false ∧
    (stageLengthNormalize logPos slope intercept (List.replicate 12 (num (-1)))
      (List.replicate 12 (num 5))).1 = List.replicate 12 PVal.nan ∧
    (List.replicate 12 PVal.nan : List PVal) ≠ List.replicate 12 (num 5) := by
  refine ⟨by decide, ?_, ?_, by decide⟩
  · rw [stageLengthNormalize, if_pos (by decide)]
  · rw [stageLengthNormalize, if_pos (by decide)]
    simp [List.map_replicate, normalizedTRASMAt, pvFillna, npLog]

/-! ## Usefulness batch shift (src/network_sim.py lines 152-153)

`min_score = df_raw["Raw Usefulness"].min()` and
`df_raw["Usefulness"] = df_raw["Raw Usefulness"] - min_score if min_score < 0
 else df_raw["Raw Usefulness"]`.

Proof infrastructure: non-`NaN` values order-embed into the linear order
`WithBot (WithTop ℚ)`, which turns the fold in `pvMin` into a `min`-fold. -/

/-- Order transfer: non-`NaN` `PVal`s into `WithBot (WithTop ℚ)` (`NaN` is
mapped to junk `⊥`; every lemma about `toE` assumes non-`NaN`). -/
def toE : PVal → WithBot (WithTop ℚ)
  | num q => ((q : WithTop ℚ) : WithBot (WithTop ℚ))
  | PVal.pinf => ((⊤ : WithTop ℚ) : WithBot (WithTop ℚ))
  | PVal.ninf => ⊥
  | PVal.nan => ⊥

theorem pvLt_nan_right (x : PVal) : pvLt x PVal.nan = false := by
  cases x <;> rfl

theorem pvLt_nan_left (x : PVal) : pvLt PVal.nan x = false := by
  cases x <;> rfl

theorem pvLt_iff_toE (a b : PVal) (ha : a ≠ PVal.nan) (hb : b ≠ PVal.nan) :
    pvLt a b = true ↔ toE a < toE b := by
  cases a <;> cases b <;>
    try simp_all [pvLt, toE, WithBot.bot_lt_coe, WithBot.coe_lt_coe, WithTop.coe_lt_top,
      lt_irrefl]
  rw [← WithBot.coe_top]
  exact WithBot.coe_lt_coe.mpr (WithTop.coe_lt_top _)

theorem pvMinBin_ne_nan {a b : PVal} (ha : a ≠ PVal.nan) (hb : b ≠ PVal.nan) :
    pvMinBin a b ≠ PVal.nan := by
  unfold pvMinBin
  split <;> assumption

theorem toE_pvMinBin {a b : PVal} (ha : a ≠ PVal.nan) (hb : b ≠ PVal.nan) :
    toE (pvMinBin a b) = min (toE a) (toE b) := by
  unfold pvMinBin
  split
  · next h =>
    rw [(pvLt_iff_toE b a hb ha).mp h |> le_of_lt |> min_eq_right]
  · next h =>
    have : ¬ toE b < toE a := fun hlt => h ((pvLt_iff_toE b a hb ha).mpr hlt)
    rw [min_eq_left (not_lt.mp this)]

theorem foldl_pvMinBin_mem : ∀ (t : List PVal) (h : PVal),
    t.foldl pvMinBin h = h ∨ t.foldl pvMinBin h ∈ t := by
  intro t
  induction t with
  | nil => intro h; exact Or.inl rfl
  | cons y t ih =>
    intro h
    have step : pvMinBin h y = h ∨ pvMinBin h y = y := by
      unfold pvMinBin; split
      · exact Or.inr rfl
      · exact Or.inl rfl
    rcases ih (pvMinBin h y) with hc | hc
    · rcases step with hs | hs
      · exact Or.inl (by rw [List.foldl_cons, hc, hs])
      · exact Or.inr (by rw [List.foldl_cons, hc, hs]; exact List.mem_cons_self y t)
    · exact Or.inr (List.mem_cons_of_mem y (by rw [List.foldl_cons]; exact hc))

theorem toE_foldl_pvMinBin : ∀ (t : List PVal) (h : PVal), h ≠ PVal.nan →
    (∀ y ∈ t, y ≠ PVal.nan) →
    toE (t.foldl pvMinBin h) = (t.map toE).foldl min (toE h) := by
  intro t
  induction t with
  | nil => intro h _ _; rfl
  | cons y t ih =>
    intro h hh ht
    have hy : y ≠ PVal.nan := ht y (List.mem_cons_self y t)
    have hrest : ∀ z ∈ t, z ≠ PVal.nan := fun z hz => ht z (List.mem_cons_of_mem y hz)
    rw [List.foldl_cons, List.map_cons, List.foldl_cons,
      ih (pvMinBin h y) (pvMinBin_ne_nan hh hy) hrest, toE_pvMinBin hh hy]

theorem foldl_min_le_of_mem {α : Type} [LinearOrder α] :
    ∀ (t : List α) (h x : α), (x = h ∨ x ∈ t) → t.foldl min h ≤ x := by
  intro t
  induction t with
  | nil =>
    intro h x hx
    rcases hx with rfl | hx
    · exact le_refl x
    · exact absurd hx (List.not_mem_nil x)
  | cons y t ih =>
    intro h x hx
    rw [List.foldl_cons]
    have base : t.foldl min (min h y) ≤ min h y := ih (min h y) (min h y) (Or.inl rfl)
    rcases hx with rfl | hx
    · exact le_trans base (min_le_left x y)
    · rcases List.mem_cons.mp hx with rfl | h1
      · exact le_trans base (min_le_right h x)
      · exact ih (min h y) x (Or.inr h1)

theorem filter_ne_nan_all {xs : List PVal} {h : PVal} {t : List PVal}
    (hf : xs.filter (fun v => v ≠ PVal.nan) = h :: t) :
    ∀ z ∈ h :: t, z ≠ PVal.nan := by
  intro z hz
  rw [← hf] at hz
  simpa using (List.mem_filter.mp hz).2

theorem pvMin_ne_nan_of_mem {xs : List PVal} {y : PVal} (hy : y ∈ xs)
    (hn : y ≠ PVal.nan) : pvMin xs ≠ PVal.nan := by
  unfold pvMin
  cases hf : xs.filter (fun v => v ≠ PVal.nan) with
  | nil =>
    exfalso
    have hmem : y ∈ xs.filter (fun v => v ≠ PVal.nan) :=
      List.mem_filter.mpr ⟨hy, by simpa using hn⟩
    rw [hf] at hmem
    exact absurd hmem (List.not_mem_nil y)
  | cons h t =>
    show List.foldl pvMinBin h t ≠ PVal.nan
    have hall := filter_ne_nan_all hf
    rcases foldl_pvMinBin_mem t h with hr | hr
    · rw [hr]; exact hall h (List.mem_cons_self h t)
    · exact hall _ (List.mem_cons_of_mem h hr)

theorem pvMin_mem_or (xs : List PVal) :
    pvMin xs = PVal.nan ∨ pvMin xs ∈ xs := by
  unfold pvMin
  cases hf : xs.filter (fun v => v ≠ PVal.nan) with
  | nil => exact Or.inl rfl
  | cons h t =>
    right
    show List.foldl pvMinBin h t ∈ xs
    have hmem : t.foldl pvMinBin h ∈ h :: t := by
      rcases foldl_pvMinBin_mem t h with hr | hr
      · rw [hr]; exact List.mem_cons_self h t
      · exact List.mem_cons_of_mem h hr
    have hsub : h :: t ⊆ xs := by
      rw [← hf]; exact List.filter_subset' xs
    exact hsub hmem

/-- The pandas skipna minimum is a lower bound: no cell of the column
compares strictly below it (comparisons with `NaN` being `false`). -/
theorem pvMin_lower (xs : List PVal) : ∀ x ∈ xs, pvLt x (pvMin xs) = false := by
  intro x hx
  by_cases hxn : x = PVal.nan
  · subst hxn; exact pvLt_nan_left _
  · unfold pvMin
    cases hf : xs.filter (fun v => v ≠ PVal.nan) with
    | nil => exact pvLt_nan_right x
    | cons h t =>
      show pvLt x (List.foldl pvMinBin h t) = false
      have hxf : x ∈ h :: t := by
        rw [← hf]
        exact List.mem_filter.mpr ⟨hx, by simpa using hxn⟩
      have hall := filter_ne_nan_all hf
      have hh : h ≠ PVal.nan := hall h (List.mem_cons_self h t)
      have ht2 : ∀ y ∈ t, y ≠ PVal.nan := fun y hy => hall y (List.mem_cons_of_mem h hy)
      have hrn : t.foldl pvMinBin h ≠ PVal.nan := by
        rcases foldl_pvMinBin_mem t h with hr | hr
        · rw [hr]; exact hh
        · exact ht2 _ hr
      have hle : toE (t.foldl pvMinBin h) ≤ toE x := by
        rw [toE_foldl_pvMinBin t h hh ht2]
        apply foldl_min_le_of_mem
        rcases List.mem_cons.mp hxf with rfl | hxt
        · exact Or.inl rfl
        · exact Or.inr (List.mem_map_of_mem toE hxt)
      by_contra hcon
      have htrue : pvLt x (t.foldl pvMinBin h) = true := by
        revert hcon
        cases pvLt x (t.foldl pvMinBin h) <;> simp
      exact absurd ((pvLt_iff_toE x _ hxn hrn).mp htrue) (not_lt.mpr hle)

theorem pvGe_zero_of_not_lt {m : PVal} (hn : m ≠ PVal.nan)
    (h : pvLt m (num 0) = false) : pvGe m (num 0) = true := by
  cases m <;> simp_all [pvLt, pvGe, pvLe]

/-- Subtracting a finite constant preserves Python float `<` verbatim, on
every pair of cells (including `NaN` and `±∞`). -/
theorem pvLt_sub_finite (x y : PVal) (q : ℚ) :
    pvLt (pvSub x (num q)) (pvSub y (num q)) = pvLt x y := by
  cases x <;> cases y <;> simp [pvSub, pvAdd, pvNeg, pvLt, add_lt_add_iff_right]

/-- Lines 152-153, cell-wise: subtract the column minimum exactly when that
minimum compares below zero. -/
def shiftStep (xs : List PVal) (x : PVal) : PVal :=
  if pvLt (pvMin xs) (num 0) then pvSub x (pvMin xs) else x

/-- Lines 152-153, column-wise: the Usefulness column from the Raw
Usefulness column. -/
def usefulnessShift (xs : List PVal) : List PVal := xs.map (shiftStep xs)

/-- C4 counterexample: the batch `[-∞, 1, 2]` (a `-∞` raw score is reachable,
e.g. a negative `TRASM - Normalized TRASM` over a zero normalized TRASM) has
minimum `-∞ < 0`, so every score is shifted by `-(-∞)`: the two finite
records 1 and 2 both become `+∞` and the record at the minimum becomes
`NaN`.  Their raw order `1 < 2` is strict but their shifted order is not,
so the shift does not preserve the order of same-batch records as claimed. -/
theorem C4_counterexample :
    usefulnessShift [PVal.ninf, num 1, num 2] = [PVal.nan, PVal.pinf, PVal.pinf] ∧
    pvLt (num 1) (num 2) = true ∧
    pvLt PVal.pinf PVal.pinf = false := by
  refine ⟨?_, by decide, by decide⟩
  decide

/-- C4 amended: provided the batch minimum of the raw scores is neither the
missing sentinel (some score is non-missing) nor `-∞`, the claim holds: the
post-shift batch minimum is ≥ 0, and the shift step maps any two cells to
cells in the same Python `<` relation as their raw values.  (A batch whose
minimum is `-∞` collapses all finite scores to `+∞`, and an all-missing
batch has a missing minimum.) -/
theorem C4_amended_shift_nonneg_order (xs : List PVal)
    (h1 : pvMin xs ≠ PVal.nan) (h2 : pvMin xs ≠ PVal.ninf) :
    pvGe (pvMin (usefulnessShift xs)) (num 0) = true ∧
    ∀ x y : PVal, pvLt (shiftStep xs x) (shiftStep xs y) = pvLt x y := by
  by_cases hlt : pvLt (pvMin xs) (num 0) = true
  · -- the minimum is strictly negative: it is a finite `num q` with `q < 0`
    have hm : ∃ q : ℚ, pvMin xs = PVal.num q ∧ q < 0 := by
      cases hmm : pvMin xs with
      | num q =>
        refine ⟨q, rfl, ?_⟩
        rw [hmm] at hlt
        simpa [pvLt] using hlt
      | pinf => rw [hmm] at hlt; simp [pvLt] at hlt
      | ninf => exact absurd hmm h2
      | nan => exact absurd hmm h1
    rcases hm with ⟨q, hq, hqneg⟩
    have hshift : ∀ x, shiftStep xs x = pvSub x (num q) := by
      intro x
      rw [shiftStep, if_pos (by rw [← hq] at *; exact hlt), hq]
    constructor
    · have hmap : usefulnessShift xs = xs.map (fun x => pvSub x (num q)) := by
        rw [usefulnessShift]
        exact List.map_congr_left (fun x _ => hshift x)
      have hzero : pvSub (PVal.num q) (num q) = PVal.num 0 := by
        simp [pvSub, pvAdd, pvNeg]
      have hmemq : PVal.num q ∈ xs := by
        rcases pvMin_mem_or xs with hc | hc
        · exact absurd hc (hq ▸ h1)
        · rw [hq] at hc; exact hc
      have h0mem : PVal.num 0 ∈ usefulnessShift xs := by
        rw [hmap, ← hzero]
        exact List.mem_map_of_mem _ hmemq
      have hlower : ∀ y ∈ usefulnessShift xs, pvLt y (num 0) = false := by
        intro y hy
        rw [hmap] at hy
        rcases List.mem_map.mp hy with ⟨x, hx, rfl⟩
        have hxlow := pvMin_lower xs x hx
        rw [hq] at hxlow
        cases x with
        | nan => simp [pvSub, pvAdd, pvNeg, pvLt]
        | pinf => simp [pvSub, pvAdd, pvNeg, pvLt]
        | ninf => simp [pvLt] at hxlow
        | num r =>
          have hqr : q ≤ r := by
            have := hxlow
            simp [pvLt] at this
            exact this
          simp [pvSub, pvAdd, pvNeg, pvLt]
          linarith
      have hne : pvMin (usefulnessShift xs) ≠ PVal.nan :=
        pvMin_ne_nan_of_mem h0mem (by simp)
      have hmemmin : pvMin (usefulnessShift xs) ∈ usefulnessShift xs := by
        rcases pvMin_mem_or (usefulnessShift xs) with hc | hc
        · exact absurd hc hne
        · exact hc
      exact pvGe_zero_of_not_lt hne (hlower _ hmemmin)
    · intro x y
      rw [hshift x, hshift y]
      exact pvLt_sub_finite x y q
  · -- the minimum is not negative: the shift is the identity
    have hfalse : pvLt (pvMin xs) (num 0) = false := by
      revert hlt; cases pvLt (pvMin xs) (num 0) <;> simp
    have hid : ∀ x, shiftStep xs x = x := by
      intro x; rw [shiftStep, if_neg (by rw [hfalse]; simp)]
    constructor
    · have : usefulnessShift xs = xs := by
        rw [usefulnessShift]
        simpa using List.map_congr_left (fun x _ => hid x)
      rw [this]
      exact pvGe_zero_of_not_lt h1 hfalse
    · intro x y
      rw [hid x, hid y]

/-- Witness for C4 amended at the batch `[-1, 2]` (finite negative
minimum). -/
theorem C4_witness :
    pvGe (pvMin (usefulnessShift [num (-1), num 2])) (num 0) = true ∧
    pvLt (shiftStep [num (-1), num 2] (num (-1))) (shiftStep [num (-1), num 2] (num 2)) =
      pvLt (num (-1)) (num 2) :=
  ⟨(C4_amended_shift_nonneg_order [num (-1), num 2] (by decide) (by decide)).1,
   (C4_amended_shift_nonneg_order [num (-1), num 2] (by decide) (by decide)).2 (num (-1)) (num 2)⟩

/-! ## Frequency Aggregator (src/network_sim.py lines 91-94) and the
route-detail view's de-duplication (line 196)

`days_op = df_raw.groupby(["ScenarioLabel", "AF"])["Day of Week"].nunique().clip(upper=7)`
then `df_raw = df_raw.merge(days_op, on=["ScenarioLabel", "AF"], how="left")`.

`nunique` counts distinct non-missing day values, `clip(upper=7)` caps the
count at 7, and the many-to-one left merge attaches the group count to
every leg row — it does not collapse the rows.  The rows of one scenario
collapse only in the route-detail view,
`df_view.drop_duplicates(subset=["ScenarioLabel", "AF"])` (line 196), which
keeps the first row of each key in input order. -/
structure Leg where
  scenario : String
  af : String
  day : Option ℚ
deriving DecidableEq, Repr

/-- The Days Operated count of group `(s, a)`:
`nunique` (distinct non-missing days) capped at 7. -/
def daysOperated (rows : List Leg) (s a : String) : ℕ :=
  min (((rows.filter (fun r => r.scenario = s ∧ r.af = a)).filterMap
    (fun r => r.day)).dedup.length) 7

/-- The aggregation merge (line 93): every leg row is kept and annotated
with its group's Days Operated count (`how="left"`, many-to-one). -/
def mergeDaysOp (rows : List Leg) : List (Leg × ℕ) :=
  rows.map (fun r => (r, daysOperated rows r.scenario r.af))

/-- `drop_duplicates(subset=["ScenarioLabel", "AF"])` with pandas' default
`keep="first"`, tracking the key set already emitted. -/
def keepFirstAux (seen : List (String × String)) : List Leg → List Leg
  | [] => []
  | r :: rest =>
      if (r.scenario, r.af) ∈ seen then keepFirstAux seen rest
      else r :: keepFirstAux ((r.scenario, r.af) :: seen) rest

/-- Line 196: `df_view.drop_duplicates(subset=["ScenarioLabel", "AF"])`. -/
def dropDuplicatesScenAF (rows : List Leg) : List Leg := keepFirstAux [] rows

/-- C2 counterexample: two legs of the same scenario and route identifier
survive the aggregation merge as two RouteRecords sharing the key
`("S", "R1")` — the main table is not collapsed after frequency
aggregation, so the claimed uniqueness fails there. -/
theorem C2_counterexample :
    mergeDaysOp [⟨"S", "R1", some 1⟩, ⟨"S", "R1", some 2⟩] =
      [(⟨"S", "R1", some 1⟩, 2), (⟨"S", "R1", some 2⟩, 2)] ∧
    ¬ List.Pairwise (fun x y => (x.1.scenario, x.1.af) ≠ (y.1.scenario, y.1.af))
      (mergeDaysOp [⟨"S", "R1", some 1⟩, ⟨"S", "R1", some 2⟩]) := by
  refine ⟨by decide, by decide⟩

theorem keepFirstAux_filter (s a : String) :
    ∀ (rows : List Leg) (seen : List (String × String)),
    (keepFirstAux seen rows).filter (fun r => r.scenario = s ∧ r.af = a) =
      if (s, a) ∈ seen then []
      else (rows.filter (fun r => r.scenario = s ∧ r.af = a)).take 1 := by
  intro rows
  induction rows with
  | nil =>
    intro seen
    by_cases h : (s, a) ∈ seen <;> simp [keepFirstAux, h]
  | cons r rest ih =>
    intro seen
    by_cases hseen : (r.scenario, r.af) ∈ seen
    · rw [keepFirstAux, if_pos hseen, ih seen]
      by_cases hk : (s, a) ∈ seen
      · simp [hk]
      · have hKr : ¬ (r.scenario = s ∧ r.af = a) := by
          rintro ⟨rfl, rfl⟩
          exact hk hseen
        rw [if_neg hk, if_neg hk, List.filter_cons_of_neg (by simpa using hKr)]
    · rw [keepFirstAux, if_neg hseen]
      by_cases hKr : r.scenario = s ∧ r.af = a
      · have hkey : (s, a) = (r.scenario, r.af) := by rw [hKr.1, hKr.2]
        have hnk : (s, a) ∉ seen := by rw [hkey]; exact hseen
        have hmem2 : (s, a) ∈ (r.scenario, r.af) :: seen := by
          rw [hkey]
          exact List.mem_cons_self _ _
        rw [List.filter_cons_of_pos (by simpa using hKr),
          ih ((r.scenario, r.af) :: seen), if_pos hmem2, if_neg hnk,
          List.filter_cons_of_pos (by simpa using hKr)]
        rfl
      · have hmem : ((s, a) ∈ (r.scenario, r.af) :: seen) ↔ ((s, a) ∈ seen) := by
          constructor
          · intro h
            rcases List.mem_cons.mp h with he | he
            · exfalso
              apply hKr
              rw [Prod.mk.injEq] at he
              exact ⟨he.1.symm, he.2.symm⟩
            · exact he
          · exact List.mem_cons_of_mem _
        rw [List.filter_cons_of_neg (by simpa using hKr),
          ih ((r.scenario, r.af) :: seen)]
        by_cases hk : (s, a) ∈ seen
        · rw [if_pos (hmem.mpr hk), if_pos hk]
        · rw [if_neg (fun hc => hk (hmem.mp hc)), if_neg hk,
            List.filter_cons_of_neg (by simpa using hKr)]

theorem keepFirstAux_pairwise :
    ∀ (rows : List Leg) (seen : List (String × String)),
    List.Pairwise (fun x y => (x.scenario, x.af) ≠ (y.scenario, y.af))
      (keepFirstAux seen rows) ∧
    ∀ r ∈ keepFirstAux seen rows, (r.scenario, r.af) ∉ seen := by
  intro rows
  induction rows with
  | nil => intro seen; simp [keepFirstAux]
  | cons r rest ih =>
    intro seen
    by_cases hseen : (r.scenario, r.af) ∈ seen
    · rw [keepFirstAux, if_pos hseen]
      exact ih seen
    · rw [keepFirstAux, if_neg hseen]
      rcases ih ((r.scenario, r.af) :: seen) with ⟨hpw, hout⟩
      refine ⟨List.Pairwise.cons ?_ hpw, ?_⟩
      · intro y hy
        have := hout y hy
        intro he
        exact this (by rw [← he]; exact List.mem_cons_self _ _)
      · intro z hz
        rcases List.mem_cons.mp hz with rfl | hz2
        · exact hseen
        · exact fun hc => hout z hz2 (List.mem_cons_of_mem _ hc)

/-- C2 amended: the aggregation merge itself keeps every duplicate leg row
(see the counterexample); per-key uniqueness holds for the route-detail
view's `drop_duplicates(["ScenarioLabel", "AF"])` (line 196): no two rows
of its output share a (scenario, route identifier) key, and for every key
the output contains exactly the first input row of that key (pandas
`keep="first"` — the deterministic collapse by input order), one row for a
present key and none for an absent one. -/
theorem C2_amended_view_dedup_unique (rows : List Leg) :
    List.Pairwise (fun x y => (x.scenario, x.af) ≠ (y.scenario, y.af))
      (dropDuplicatesScenAF rows) ∧
    ∀ s a : String,
      (dropDuplicatesScenAF rows).filter (fun r => r.scenario = s ∧ r.af = a) =
        (rows.filter (fun r => r.scenario = s ∧ r.af = a)).take 1 := by
  constructor
  · exact (keepFirstAux_pairwise rows []).1
  · intro s a
    have h := keepFirstAux_filter s a rows []
    simpa [dropDuplicatesScenAF] using h

/-- C8 counterexample: a group consisting of one leg whose day-of-week cell
is missing gets `nunique = 0` (pandas `nunique` drops missing values), so
its Days Operated count is 0, outside the claimed interval `[1, 7]`. -/
theorem C8_counterexample :
    daysOperated [⟨"S", "R1", none⟩] "S" "R1" = 0 := by
  decide

/-- C8 amended: every Days Operated count is at most 7 (the `clip`), and is
at least 1 whenever some leg of the group carries a non-missing day-of-week
value; a group whose legs all have missing days gets count 0. -/
theorem C8_amended_days_operated_bounds (rows : List Leg) (s a : String)
    (h : ∃ r ∈ rows, r.scenario = s ∧ r.af = a ∧ r.day ≠ none) :
    1 ≤ daysOperated rows s a ∧ daysOperated rows s a ≤ 7 := by
  constructor
  · rcases h with ⟨r, hr, hs, ha, hd⟩
    rcases Option.ne_none_iff_exists.mp hd with ⟨d, hd2⟩
    have hfil : r ∈ rows.filter (fun r => r.scenario = s ∧ r.af = a) :=
      List.mem_filter.mpr ⟨hr, by simp [hs, ha]⟩
    have hmem : d ∈ (rows.filter (fun r => r.scenario = s ∧ r.af = a)).filterMap
        (fun r => r.day) :=
      List.mem_filterMap.mpr ⟨r, hfil, by rw [← hd2]⟩
    have hlen : 0 < ((rows.filter (fun r => r.scenario = s ∧ r.af = a)).filterMap
        (fun r => r.day)).dedup.length :=
      List.length_pos.mpr (List.ne_nil_of_mem (List.mem_dedup.mpr hmem))
    exact le_min hlen (by norm_num)
  · exact min_le_right _ 7

/-- Witness for C8 amended at a one-leg group with day 3. -/
theorem C8_witness :
    1 ≤ daysOperated [⟨"S", "R1", some 3⟩] "S" "R1" ∧
    daysOperated [⟨"S", "R1", some 3⟩] "S" "R1" ≤ 7 :=
  C8_amended_days_operated_bounds [⟨"S", "R1", some 3⟩] "S" "R1"
    (by decide)

/-! ## Scenario Differ

Modelled from the spec: the repository's source contains no Scenario Differ
implementation (no added/removed/retained computation appears in
src/network_sim.py); the definitions below follow the spec's words (§4.7):
over route identifiers, added = in comparison, not base; removed = in base,
not comparison; retained = in both. -/
structure ScenarioSet where
  label : String
  ids : Finset String

/-- Modelled from the spec: `added = comparison \ base` over route
identifiers. -/
def addedRoutes (base comparison : ScenarioSet) : Finset String :=
  comparison.ids \ base.ids

/-- Modelled from the spec: `removed = base \ comparison` over route
identifiers. -/
def removedRoutes (base comparison : ScenarioSet) : Finset String :=
  base.ids \ comparison.ids

/-- Modelled from the spec: `retained = base ∩ comparison` over route
identifiers. -/
def retainedRoutes (base comparison : ScenarioSet) : Finset String :=
  base.ids ∩ comparison.ids

/-- C9: for every pair of ScenarioSets A (base) and B (comparison), the
added and removed identifier sets are disjoint, and
added ∪ removed ∪ retained equals the union of the two scenarios'
route-identifier sets. -/
theorem C9_differ_partition (A B : ScenarioSet) :
    Disjoint (addedRoutes A B) (removedRoutes A B) ∧
    addedRoutes A B ∪ removedRoutes A B ∪ retainedRoutes A B = A.ids ∪ B.ids := by
  constructor
  · rw [Finset.disjoint_left]
    intro x hx hx2
    exact (Finset.mem_sdiff.mp hx).2 (Finset.mem_sdiff.mp hx2).1
  · ext x
    simp only [addedRoutes, removedRoutes, retainedRoutes, Finset.mem_union,
      Finset.mem_sdiff, Finset.mem_inter]
    tauto

/-! ## Pavlina ingestion, the fallback fill, and the final RRS
(src/network_sim.py lines 56-82, 100-123, 155)

The Pavlina dataset is ingested with `ScenarioLabel = "Pavlina Assumptions"`
and `Spill Rate = 1.0` fixed (lines 62 and 71).  The cross-dataset fallback
fill (lines 106-123) rewrites only the six `fallback_cols` of
Pavlina-labelled rows — filling a missing-or-zero cell from the base-network
lookup when a match exists — and `"Spill Rate"` is not among them.  A row is
modelled as its scenario label plus a column-name-indexed cell map; the
base-lookup values for a row are a function `fb` from column name to the
matched base cell (`NaN` when the airport-pair key has no match, like the
`fallback_series` initialised to `NaN`). -/
structure Row where
  label : String
  cols : String → PVal

/-- Lines 106-113: the columns the fallback fill may rewrite. -/
def fallbackCols : List String :=
  ["Constrained Segment Pax", "Constrained Segment Revenue", "Load Factor",
   "Constrained Yield (cent, km)", "RASM", "TRASM"]

/-- Line 123, cell-wise: fill when the original is missing or zero and the
looked-up fallback is non-missing. -/
def fillCell (orig fb : PVal) : PVal :=
  if (orig = PVal.nan ∨ orig = PVal.num 0) ∧ fb ≠ PVal.nan then fb else orig

/-- Lines 115-123: the fallback fill over one row — only rows labelled
"Pavlina Assumptions" (pav_mask) and only the `fallback_cols` are
rewritten. -/
def fallbackFill (fb : String → PVal) (r : Row) : Row :=
  if r.label = "Pavlina Assumptions" then
    { r with cols := fun c => if c ∈ fallbackCols then fillCell (r.cols c) (fb c) else r.cols c }
  else r

/-- Lines 59-81: ingestion of one Pavlina row — the scenario label, spill
rate 1.0, yield 0, zero constrained revenue/pax, one seat, day 1 are fixed;
distance, ASM and unconstrained revenue come from the file; every other
column of the base frame is filled with `NaN` (lines 78-80). -/
def pavIngest (sl addedASMs addedRev : PVal) : Row :=
  { label := "Pavlina Assumptions",
    cols := fun c =>
      if c = "Distance (mi)" then sl
      else if c = "ASM" then addedASMs
      else if c = "Unconstrained O&D Revenue" then addedRev
      else if c = "Constrained Segment Revenue" then num 0
      else if c = "Constrained Segment Pax" then num 0
      else if c = "Seats" then num 1
      else if c = "Cut" then num 0
      else if c = "Day of Week" then num 1
      else if c = "Spill Rate" then num 1
      else if c = "Constrained Yield (cent, km)" then num 0
      else PVal.nan }

/-- C10: every row of the "Pavlina Assumptions" scenario gets a missing RRS:
ingestion fixes the scenario's spill rate at 1.0, the fallback fill never
rewrites the spill-rate column (it is not a fallback column), and
`compute_rrs` maps a spill rate of 1 to a missing spill adjustment that
absorbs the whole product — whatever values the other inputs of the
Resilience Scorer take by the time it runs (cost, profit, ASM, yield and
load factor are quantified over all cells, covering the columns the
intermediate stages derive). -/
theorem C10_pavlina_rrs_missing (sl addedASMs addedRev : PVal)
    (fb : String → PVal) (fare : ℚ) (cost profit asm yld lf : PVal) :
    ("Spill Rate" ∉ fallbackCols) ∧
    (fallbackFill fb (pavIngest sl addedASMs addedRev)).cols "Spill Rate" = PVal.num 1 ∧
    computeRRS fare cost profit asm yld lf
      ((fallbackFill fb (pavIngest sl addedASMs addedRev)).cols "Spill Rate") = PVal.nan := by
  have hnot : "Spill Rate" ∉ fallbackCols := by decide
  have hcell : (fallbackFill fb (pavIngest sl addedASMs addedRev)).cols "Spill Rate" =
      PVal.num 1 := by
    simp [fallbackFill, pavIngest, hnot]
  exact ⟨hnot, hcell, by rw [hcell]; exact computeRRS_spill_one fare cost profit asm yld lf⟩
